import Mathlib

/-!
Verification of the komohaven availability reconciliation engine.

The definitions below are shallow embeddings of the JavaScript sources:

* `src/workers/avail-sync/src/index.js` — the single-feed sync worker
  (namespace `Worker`); its `normalizeRanges` merges with `r.start <= last.end`.
* the multi-feed sync worker (the current deployment, whose text is stored in
  `src/push_availability.sh`, third segment) — namespace `Multi`; its
  `normalizeRanges` merges with the strict `r.start < last.end`.
* `src/functions/api/availability.js` — the KV-backed read endpoint
  (namespace `Api`).

Dates are `YYYY-MM-DD` strings; JavaScript compares strings lexicographically
by code unit, which for these ASCII payloads is the lexicographic order on the
character list `String.data`.  The boolean comparators below spell that out
(`a <= b` is evaluated by JavaScript as the negation of `b < a`).
-/

/-- JavaScript `a < b` on strings: lexicographic comparison. -/
def jsLtB (a b : String) : Bool := decide (a.data < b.data)

/-- JavaScript `a <= b` on strings (evaluated as `!(b < a)`). -/
def jsLeB (a b : String) : Bool := !jsLtB b a

/-- JavaScript string truthiness: a string is truthy iff it is nonempty. -/
def strTruthy (s : String) : Bool := !s.data.isEmpty

theorem jsLtB_eq_true_iff {a b : String} : jsLtB a b = true ↔ a < b := by
  simp [jsLtB, String.lt_iff_toList_lt, String.toList]

theorem jsLeB_eq_true_iff {a b : String} : jsLeB a b = true ↔ a ≤ b := by
  simp [jsLeB, jsLtB, String.lt_iff_toList_lt, String.toList, ← not_lt]

theorem jsLtB_eq_false_iff {a b : String} : jsLtB a b = false ↔ b ≤ a := by
  rw [← Bool.not_eq_true, jsLtB_eq_true_iff, not_lt]

theorem jsLeB_eq_false_iff {a b : String} : jsLeB a b = false ↔ b < a := by
  rw [← Bool.not_eq_true, jsLeB_eq_true_iff, not_le]

theorem strTruthy_eq_true_iff {s : String} : strTruthy s = true ↔ s ≠ "" := by
  cases s with
  | mk data =>
    simp [strTruthy, List.isEmpty_iff]
    exact not_congr (by simp [String.ext_iff])

/-- A half-open booked interval `{start, end}` as stored in KV and produced by
`parseICS`/`normalizeRanges`.  Field `end` is written `«end»` because `end` is
a Lean keyword. -/
structure Range where
  start : String
  «end» : String
deriving DecidableEq, Repr

/-- The in-place update `if (r.end > last.end) last.end = r.end` performed on
the current tail of the merge sweep (both worker versions share it). -/
def updateEnd (cur r : Range) : Range :=
  if jsLtB cur.«end» r.«end» then { cur with «end» := r.«end» } else cur

/-- Functional rendering of the merge sweep shared by both workers.  `c` is the
boolean comparison applied as `c r.start last.end`: the old worker instantiates
it with `<=` (`index.js` line 258), the current worker with `<`
(`push_availability.sh` segment 3).  `cur` is the current tail `last`;
absorbing mutates it via `updateEnd`, otherwise `last` is closed and `r` opens
a new tail. -/
def mergeGoC (c : String → String → Bool) : Range → List Range → List Range
  | cur, [] => [cur]
  | cur, r :: rest =>
    if c r.start cur.«end» then mergeGoC c (updateEnd cur r) rest
    else cur :: mergeGoC c r rest

/-- The whole merge loop: the first element seeds `merged`, the rest are swept
by `mergeGoC`. -/
def mergeC (c : String → String → Bool) : List Range → List Range
  | [] => []
  | r :: rest => mergeGoC c r rest

/-- One step of the final deduplication loop: keep `r` when
`prev.start !== r.start || prev.end !== r.end`, else drop it (`prev` is the
last kept element). -/
def dedupeGo : Range → List Range → List Range
  | _, [] => []
  | prev, r :: rest =>
    if prev.start ≠ r.start ∨ prev.«end» ≠ r.«end» then r :: dedupeGo r rest
    else dedupeGo prev rest

/-- The `deduped` pass of `normalizeRanges` (`prev` starts out `null`, so the
first element is always kept). -/
def dedupe : List Range → List Range
  | [] => []
  | r :: rest => r :: dedupeGo r rest

/-- The input filter `(r) => r && r.start && r.end`: only entries whose two
date strings are nonempty (truthy) survive.  The subsequent `.map` copies the
two fields and is the identity here. -/
def filterRanges (l : List Range) : List Range :=
  l.filter (fun r => strTruthy r.start && strTruthy r.«end»)

/-- The comparator `(a, b) => (a.start < b.start ? -1 : a.start > b.start ? 1 : 0)`
orders by the `start` string only; `Array.prototype.sort` is stable, so the
sort is the stable sort by that key. -/
def keyLe (a b : Range) : Bool := jsLeB a.start b.start

/-- The `.sort(...)` call of `normalizeRanges`: a stable sort by `start`. -/
def sortByStart (l : List Range) : List Range :=
  l.mergeSort keyLe

namespace Worker

/-- `normalizeRanges` of `src/workers/avail-sync/src/index.js` (lines
245–278): filter, stable sort by start, merge sweep with the non-strict
comparison `r.start <= last.end`, then deduplicate. -/
def normalizeRanges (ranges : List Range) : List Range :=
  dedupe (mergeC (fun a b => jsLeB a b) (sortByStart (filterRanges ranges)))

end Worker

namespace Multi

/-- `normalizeRanges` of the current multi-feed worker (text in
`src/push_availability.sh`, third segment): identical to the old worker's
except the merge condition is the strict `r.start < last.end`. -/
def normalizeRanges (ranges : List Range) : List Range :=
  dedupe (mergeC (fun a b => jsLtB a b) (sortByStart (filterRanges ranges)))

end Multi

/-! ## The iCal parser (`parseICS` and helpers, identical in both workers) -/

/-- The whitespace class used by JavaScript `trim` and `\s` (the ASCII part;
the feeds and slugs handled by this system are ASCII). -/
def jsWs (c : Char) : Bool :=
  c == ' ' || c == '\t' || c == '\n' || c == '\r' || c == '\x0b' || c == '\x0c'

/-- JavaScript `String.prototype.trim`. -/
def jsTrim (s : String) : String :=
  ⟨((s.data.dropWhile jsWs).reverse.dropWhile jsWs).reverse⟩

/-- Split a character list at every occurrence of `sep` (JavaScript
`split(sep)`: no empty-result collapsing, `"".split` gives `[""]`). -/
def splitOnCharGo (sep : Char) : List Char → List Char → List (List Char)
  | acc, [] => [acc.reverse]
  | acc, ch :: rest =>
    if ch == sep then acc.reverse :: splitOnCharGo sep [] rest
    else splitOnCharGo sep (ch :: acc) rest

/-- JavaScript `s.split(sep)` for a one-character separator. -/
def splitOnChar (sep : Char) (s : String) : List String :=
  (splitOnCharGo sep [] s.data).map (fun l => ⟨l⟩)

/-- Drop one trailing carriage return, so that splitting on `'\n'` and then
stripping matches the JavaScript `split(/\r?\n/)`. -/
def stripCR (s : String) : String :=
  match s.data.reverse with
  | '\r' :: rest => ⟨rest.reverse⟩
  | _ => s

/-- `text.split(/\r?\n/)` of `unfold`. -/
def splitLines (text : String) : List String :=
  (splitOnChar '\n' text).map stripCR

/-- The loop body of `unfold` (index.js lines 195–206): a line starting with a
space or tab continues the previous line (joined after dropping the marker);
otherwise it is pushed.  `acc` holds the output so far, reversed. -/
def unfoldGo : List String → List String → List String
  | acc, [] => acc.reverse
  | acc, line :: rest =>
    match acc with
    | prev :: accRest =>
      if line.data.headD 'x' == ' ' || line.data.headD 'x' == '\t' then
        unfoldGo ((prev ++ (⟨line.data.drop 1⟩ : String)) :: accRest) rest
      else unfoldGo (line :: acc) rest
    | [] => unfoldGo [line] rest

/-- `unfold` of the workers: undo iCal line folding. -/
def unfoldText (text : String) : List String :=
  unfoldGo [] (splitLines text)

/-- `current[k] = v` on the JavaScript event object: replace in place when the
key exists (key order is insertion order), else append. -/
def objSet (obj : List (String × String)) (k v : String) : List (String × String) :=
  if obj.any (fun p => p.1 = k) then
    obj.map (fun p => if p.1 = k then (k, v) else p)
  else obj ++ [(k, v)]

/-- `isCancelled` (index.js lines 208–210): some key starting with `STATUS`
maps to `CANCELLED`. -/
def isCancelled (event : List (String × String)) : Bool :=
  event.any (fun p => "STATUS".data.isPrefixOf p.1.data && p.2 == "CANCELLED")

/-- The `/^\d{8}T\d{4}Z?$/` and `/^\d{8}T\d{6}Z?$/` date-time patterns of
`normalizeDate`. -/
def dtPattern (l : List Char) : Bool :=
  ((l.take 8).length == 8 && (l.take 8).all Char.isDigit) &&
    (match l.drop 8 with
     | 'T' :: t =>
       (t.length == 4 && t.all Char.isDigit) ||
       (t.length == 5 && (t.take 4).all Char.isDigit && t.getLastD ' ' == 'Z') ||
       (t.length == 6 && t.all Char.isDigit) ||
       (t.length == 7 && (t.take 6).all Char.isDigit && t.getLastD ' ' == 'Z')
     | _ => false)

/-- The `${v.slice(0,4)}-${v.slice(4,6)}-${v.slice(6,8)}` reformatting. -/
def sliceDate (l : List Char) : String :=
  ⟨l.take 4 ++ ('-' :: (l.drop 4).take 2) ++ ('-' :: (l.drop 6).take 2)⟩

/-- `normalizeDate` (index.js lines 218–236).  The final branch parses the
value with the JavaScript `Date` constructor and reformats its UTC parts; that
host-dependent parser is the `fallback` parameter, universally quantified in
the theorems below. -/
def normalizeDate (fallback : String → Option String) (value : String) : Option String :=
  let v := jsTrim value
  if v.data.isEmpty then none
  else if v.data.length == 8 && v.data.all Char.isDigit then some (sliceDate v.data)
  else if dtPattern v.data then some (sliceDate v.data)
  else fallback v

/-- `extractDate` (index.js lines 212–216): find the first key whose part
before `';'` equals `key`, and normalize its value. -/
def extractDate (fallback : String → Option String) (event : List (String × String))
    (key : String) : Option String :=
  match event.find? (fun p => (splitOnChar ';' p.1).headD "" = key) with
  | none => none
  | some p => normalizeDate fallback p.2

/-- The line-processing loop of `parseICS` (index.js lines 170–193).
`current` is the event object being accumulated, `events` the result array.
On `END:VEVENT`, the event is pushed only when it is not cancelled, both dates
extract, both are truthy, and `end > start`. -/
def parseGo (fallback : String → Option String) :
    List String → List (String × String) → List Range → List Range
  | [], _, events => events
  | raw :: rest, current, events =>
    let line := jsTrim raw
    if line = "BEGIN:VEVENT" then parseGo fallback rest [] events
    else if line = "END:VEVENT" then
      let events' :=
        if isCancelled current then events
        else
          match extractDate fallback current "DTSTART",
                extractDate fallback current "DTEND" with
          | some s, some e =>
            if strTruthy s && strTruthy e && jsLtB s e then events ++ [⟨s, e⟩]
            else events
          | some _, none => events
          | none, _ => events
      parseGo fallback rest [] events'
    else
      let current' :=
        match splitOnChar ':' line with
        | k :: v :: _ => if strTruthy k && strTruthy v then objSet current k v else current
        | _ => current
      parseGo fallback rest current' events

/-- `parseICS` (identical in both workers). -/
def parseICS (fallback : String → Option String) (text : String) : List Range :=
  parseGo fallback (unfoldText text) [] []

/-! ## The feed fetcher (`fetchWithTimeout`, identical in both workers) -/

/-- Outcome of one `fetch` attempt: an HTTP response with a status and body,
or a network/timeout error carrying a message that does not start with
`"HTTP "`. -/
inductive AttemptResult where
  | response (status : Nat) (body : String)
  | netErr (msg : String)

/-- The retry loop of `fetchWithTimeout` (index.js lines 133–168) with its
three-entry backoff schedule `[0, 250, 750]`.  `attempts i` is what the `i`-th
`fetch` call does; the returned `Nat` counts the attempts performed.
`res.ok` is status 200–299; 429 and 5xx update `lastErr` and continue; other
non-ok statuses throw `HTTP <status>`, which the catch recognises by its
prefix and breaks out of the loop; network errors retry unless this was the
last attempt.  The timer bookkeeping (`AbortController`, `clearTimeout`) has
no observable effect on the result. -/
def fetchLoop (attempts : Nat → AttemptResult) (lastErr : Option String) (i : Nat) :
    Except String String × Nat :=
  if i < 3 then
    match attempts i with
    | .response st body =>
      if 200 ≤ st ∧ st ≤ 299 then (.ok body, i + 1)
      else if st = 429 ∨ 500 ≤ st then
        fetchLoop attempts (some ("HTTP " ++ toString st)) (i + 1)
      else (.error ("HTTP " ++ toString st), i + 1)
    | .netErr m =>
      if i = 2 then (.error m, i + 1)
      else fetchLoop attempts (some m) (i + 1)
  else (.error (lastErr.getD "fetch failed"), i)
termination_by 3 - i

/-- `fetchWithTimeout(url, ms)`, as a function of the attempt oracle. -/
def fetchWithTimeout (attempts : Nat → AttemptResult) : Except String String × Nat :=
  fetchLoop attempts none 0

/-! ## The multi-feed sync orchestrator (`syncProperty` of the current worker) -/

/-- Replace the first occurrence of `pat` (JavaScript
`String.prototype.replace` with a string pattern replaces only the first). -/
def replaceFirstGo (pat repl : List Char) : List Char → List Char
  | [] => []
  | c :: rest =>
    if pat.isPrefixOf (c :: rest) then repl ++ (c :: rest).drop pat.length
    else c :: replaceFirstGo pat repl rest

/-- JavaScript `s.replace(pat, repl)` for string patterns (first occurrence
only; `pat` nonempty). -/
def replaceFirst (s pat repl : String) : String :=
  ⟨replaceFirstGo pat.data repl.data s.data⟩

/-- Per-feed outcome recorded in `feedsStatus` (`{ok, error?, feed_hash?}`). -/
structure FeedResult where
  ok : Bool
  error : Option String
  feed_hash : Option String
deriving DecidableEq, Repr

/-- The persisted `sync_status` payload built by `writeStatus`
(`push_availability.sh` segment 3, lines 308–336).  An absent `feeds` object
is represented by the empty list. -/
structure SyncStatus where
  ok : Bool
  ts : String
  message : String
  source : String
  changed : Bool
  booking_hash : Option String
  feed_hash : Option String
  feeds : List (String × FeedResult)
deriving DecidableEq, Repr

/-- The three KV entries of one resource (`avail:{slug}:booked`,
`avail:{slug}:last_sync`, `avail:{slug}:sync_status`), holding structured
values (the JSON serialization is elided). -/
structure KVState where
  booked : Option (List Range)
  last_sync : Option String
  sync_status : Option SyncStatus
deriving DecidableEq, Repr

/-- One configured feed `{source, url}` of a property; a missing env binding
is the empty (falsy) URL. -/
structure FeedSpec where
  source : String
  url : String
deriving DecidableEq, Repr

/-- The external collaborators of one sync cycle: the network
(`fetchWithTimeout` per URL), WebCrypto (`sha256Hex`, which the code guards
with try/catch), the KV read of the previous status (`kv.get` plus
`JSON.parse`, either of which can throw), whether the KV puts of the final
block succeed, the clock, and the host `Date` parser used by
`normalizeDate`'s fallback branch. -/
structure CycleEnv where
  fetch : String → Except String String
  hash : String → Except String String
  kvGetStatus : Except String (Option SyncStatus)
  kvPutOk : Bool
  now : String
  dateFallback : String → Option String

/-- `JSON.stringify` of one `{start, end}` range. -/
def stringifyRange (r : Range) : String :=
  "\x7b\"start\":\"" ++ r.start ++ "\",\"end\":\"" ++ r.«end» ++ "\"\x7d"

/-- `JSON.stringify` of a range array, the input of the booking hash. -/
def stringifyRanges (rs : List Range) : String :=
  "[" ++ String.intercalate "," (rs.map stringifyRange) ++ "]"

namespace Multi

/-- `writeStatus` of the multi-feed worker: build the status payload.
`booking_hash`/`feed_hash` are included (with their `sha256:` prefix) only
when truthy. -/
def writeStatus (ok : Bool) (source message : String) (bookingHash : Option String)
    (changed : Bool) (feedsStatus : List (String × FeedResult))
    (combinedFeedHash : Option String) (now : String) : SyncStatus :=
  { ok := ok
    ts := now
    message := message
    source := source
    changed := changed
    booking_hash := bookingHash.bind (fun h => if h = "" then none else some ("sha256:" ++ h))
    feed_hash := combinedFeedHash.bind (fun h => if h = "" then none else some ("sha256:" ++ h))
    feeds := feedsStatus }

/-- Accumulator of the per-feed loop of `syncProperty`
(`push_availability.sh` segment 3, lines 137–183). -/
structure FeedAcc where
  feedsStatus : List (String × FeedResult)
  allRanges : List Range
  feedHashParts : List String
  feedCount : Nat
  successCount : Nat
deriving Repr

/-- One iteration of the per-feed loop: missing URL is recorded without
counting the feed; a fetch or hash failure records the error and continues;
otherwise the feed hash is recorded, the parsed and normalized ranges are
appended, and the feed counts as a success (`parseICS`/`normalizeRanges` are
total, so the `feed_parse_error` catch is unreachable). -/
def processFeed (env : CycleEnv) (acc : FeedAcc) (feed : FeedSpec) : FeedAcc :=
  if feed.url = "" then
    { acc with
      feedsStatus := acc.feedsStatus ++ [(feed.source, ⟨false, some "missing_url", none⟩)] }
  else
    match env.fetch feed.url with
    | .error e =>
      { acc with
        feedCount := acc.feedCount + 1
        feedsStatus := acc.feedsStatus ++ [(feed.source, ⟨false, some e, none⟩)] }
    | .ok icsText =>
      match env.hash icsText with
      | .error e =>
        { acc with
          feedCount := acc.feedCount + 1
          feedsStatus := acc.feedsStatus ++ [(feed.source, ⟨false, some e, none⟩)] }
      | .ok feedHash =>
        { feedsStatus :=
            acc.feedsStatus ++ [(feed.source, ⟨true, none, some ("sha256:" ++ feedHash)⟩)]
          allRanges := acc.allRanges ++ normalizeRanges (parseICS env.dateFallback icsText)
          feedHashParts := acc.feedHashParts ++ [feed.source ++ "\n" ++ feedHash]
          feedCount := acc.feedCount + 1
          successCount := acc.successCount + 1 }

/-- The whole per-feed loop. -/
def processFeeds (env : CycleEnv) (feeds : List FeedSpec) : FeedAcc :=
  feeds.foldl (processFeed env) ⟨[], [], [], 0, 0⟩

/-- The combined feed hash: sort the `source\nhash` parts (JavaScript default
sort = lexicographic), join with newlines and hash; `null` when that hash
fails (`feed_hash_error` is logged but does not abort the cycle). -/
def combinedFeedHashOf (env : CycleEnv) (acc : FeedAcc) : Option String :=
  match env.hash (String.intercalate "\n"
      (acc.feedHashParts.mergeSort (fun a b => jsLeB a b))) with
  | .ok h => some h
  | .error _ => none

/-- The Telegram alert text `❌ Availability sync failed for ${slug}: ...`. -/
def alertMsg (slug reason : String) : String :=
  "❌ Availability sync failed for " ++ slug ++ ": " ++ reason

/-- The failure exit of the final KV block: a thrown put/get is caught, a
failed status tagged `kv_write_error` is written and one alert is sent
(`push_availability.sh` segment 3, lines 291–305).  The recovery status write
itself is assumed to succeed. -/
def kvWriteFail (slug : String) (acc : FeedAcc) (combinedFeedHash : Option String)
    (now : String) (kv : KVState) : KVState × List String :=
  ({ kv with
     sync_status :=
       some (writeStatus false "airbnb+booking" "kv_write_error" none false
         acc.feedsStatus combinedFeedHash now) },
   [alertMsg slug "kv_write_error"])

/-- `syncProperty` of the multi-feed worker (`push_availability.sh` segment 3,
lines 131–306): run the per-feed loop, fail the property when no feed
succeeded, merge, hash, compute the combined feed hash, compare with the
previous status and write conditionally.  Returns the new KV state of the
resource and the alerts emitted. -/
def syncProperty (env : CycleEnv) (slug : String) (feeds : List FeedSpec)
    (kv : KVState) : KVState × List String :=
  let acc := processFeeds env feeds
  if acc.successCount = 0 then
    ({ kv with
       sync_status :=
         some (writeStatus false "airbnb+booking" "all_feeds_failed" none false
           acc.feedsStatus none env.now) },
     [alertMsg slug "all feeds failed"])
  else
    let mergedRanges := normalizeRanges acc.allRanges
    match env.hash (stringifyRanges mergedRanges) with
    | .error _ =>
      ({ kv with
         sync_status :=
           some (writeStatus false "airbnb+booking" "hash_error" none false
             acc.feedsStatus none env.now) },
       [alertMsg slug "hash_error"])
    | .ok bookingHash =>
      let combinedFeedHash := combinedFeedHashOf env acc
      match env.kvGetStatus with
      | .error _ => kvWriteFail slug acc combinedFeedHash env.now kv
      | .ok previousStatus =>
        let previousBookingHash :=
          (previousStatus.bind (fun st => st.booking_hash)).map
            (fun s => replaceFirst s "sha256:" "")
        let changed := previousBookingHash ≠ some bookingHash
        let message := if acc.successCount < acc.feedCount then "partial" else "ok"
        if ¬ changed then
          if env.kvPutOk then
            ({ kv with
               sync_status :=
                 some (writeStatus true "airbnb+booking" "unchanged" (some bookingHash)
                   false acc.feedsStatus combinedFeedHash env.now) },
             [])
          else kvWriteFail slug acc combinedFeedHash env.now kv
        else
          if env.kvPutOk then
            ({ booked := some mergedRanges
               last_sync := some env.now
               sync_status :=
                 some (writeStatus true "airbnb+booking" message (some bookingHash)
                   true acc.feedsStatus combinedFeedHash env.now) },
             [])
          else kvWriteFail slug acc combinedFeedHash env.now kv

end Multi

/-! ## The KV-backed read endpoint (`src/functions/api/availability.js`) -/

namespace Api

/-- JSON values, as returned by `JSON.parse` (the shapes relevant here). -/
inductive JVal where
  | null
  | bool (b : Bool)
  | num (n : Int)
  | str (s : String)
  | arr (xs : List JVal)

/-- The JSON body and HTTP status of a `jsonResponse` reply.  Fields that the
code conditionally omits are `Option`s. -/
structure ApiResponse where
  status : Nat
  ok : Bool
  error : Option String
  slug : Option String
  key : Option String
  booked : Option JVal
  last_sync : Option String

/-- External collaborators of the endpoint: the KV binding's presence,
`kv.get` per key, and `JSON.parse`. -/
structure ApiEnv where
  kvPresent : Bool
  get : String → Except String (Option String)
  jsonParse : String → Except String JVal

/-- The `raw.replace(/\s+/g, "-")` step of `normalizeSlug`: each maximal
whitespace run becomes one dash.  The boolean argument records whether the
previous character was whitespace. -/
def collapseWsGo : Bool → List Char → List Char
  | _, [] => []
  | prevWs, c :: rest =>
    if jsWs c then
      if prevWs then collapseWsGo true rest else '-' :: collapseWsGo true rest
    else c :: collapseWsGo false rest

/-- `raw.replace(/\s+/g, "-")`. -/
def collapseWs (s : String) : String := ⟨collapseWsGo false s.data⟩

/-- JavaScript `toLowerCase` for the ASCII slugs handled here. -/
def toLowerStr (s : String) : String := ⟨s.data.map Char.toLower⟩

/-- `normalizeSlug` (`availability.js` lines 60–66). -/
def normalizeSlug (value : String) : String :=
  if value = "" then ""
  else
    let raw := toLowerStr (jsTrim value)
    if raw = "studio9" ∨ raw = "studio-9" then "studio-9"
    else if raw = "blue-dream" then "blue-dream"
    else collapseWs raw

/-- The `bookedRaw` default: start from `"[]"` and take the stored value only
when truthy (`availability.js` lines 22, 30–32). -/
def bookedRawOf (bookedData : Option String) : String :=
  match bookedData with
  | some s => if s = "" then "[]" else s
  | none => "[]"

/-- The `lastSyncRaw` value: `null` unless the stored value is truthy
(`availability.js` lines 23, 33–35, 50–52). -/
def lastSyncRawOf (lastSyncData : Option String) : Option String :=
  match lastSyncData with
  | some s => if s = "" then none else some s
  | none => none

/-- `onRequest` (`availability.js` lines 3–58) as a function of the request
method and the raw `slug` query parameter (`none` when absent).  The second
component lists the KV keys read (the endpoint never writes). -/
def onRequest (env : ApiEnv) (method : String) (slugParam : Option String) :
    ApiResponse × List String :=
  if method ≠ "GET" then
    (⟨405, false, some "method", none, none, none, none⟩, [])
  else if ¬ env.kvPresent then
    (⟨500, false, some "kv_missing", none, none, none, none⟩, [])
  else
    let rawSlug := slugParam.getD ""
    let slug := normalizeSlug rawSlug
    if slug = "" ∨ (slug ≠ "blue-dream" ∧ slug ≠ "studio-9") then
      (⟨400, false, some "invalid_slug", none, none, none, none⟩, [])
    else
      let key := "avail:" ++ slug ++ ":booked"
      let lastSyncKey := "avail:" ++ slug ++ ":last_sync"
      let reads := [key, lastSyncKey]
      match env.get key, env.get lastSyncKey with
      | .error _, _ =>
        (⟨500, false, some "kv_read_failed", none, none, none, none⟩, reads)
      | .ok _, .error _ =>
        (⟨500, false, some "kv_read_failed", none, none, none, none⟩, reads)
      | .ok bookedData, .ok lastSyncData =>
        let bookedRaw := bookedRawOf bookedData
        let lastSyncRaw : Option String := lastSyncRawOf lastSyncData
        match env.jsonParse bookedRaw with
        | .error _ =>
          (⟨500, false, some "parse_error", none, none, none, none⟩, reads)
        | .ok booked =>
          (⟨200, true, none, some slug, some key, some booked, lastSyncRaw⟩, reads)

end Api

/-! ## Lemmas about the normalizer -/

/-- The generic normalizer: both workers' `normalizeRanges` are instances. -/
def normalizeC (c : String → String → Bool) (ranges : List Range) : List Range :=
  dedupe (mergeC c (sortByStart (filterRanges ranges)))

theorem worker_normalizeRanges_eq (X : List Range) :
    Worker.normalizeRanges X = normalizeC (fun a b => jsLeB a b) X := rfl

theorem multi_normalizeRanges_eq (X : List Range) :
    Multi.normalizeRanges X = normalizeC (fun a b => jsLtB a b) X := rfl

/-- Order on ranges by start date (the sort key). -/
def SLe (a b : Range) : Prop := a.start ≤ b.start

instance : IsTrans Range SLe := ⟨fun _ _ _ hab hbc => le_trans hab hbc⟩

/-- The gap invariant the merge sweep establishes between consecutive output
ranges: the condition that would have absorbed the second into the first is
false. -/
def Gap (c : String → String → Bool) (a b : Range) : Prop := c b.start a.«end» = false

theorem keyLe_eq_true_iff {a b : Range} : keyLe a b = true ↔ SLe a b := by
  simp [keyLe, jsLeB_eq_true_iff, SLe]

theorem keyLe_trans : ∀ (a b c : Range), keyLe a b → keyLe b c → keyLe a c := by
  intro a b c hab hbc
  rw [keyLe_eq_true_iff] at *
  exact le_trans hab hbc

theorem keyLe_total : ∀ (a b : Range), keyLe a b || keyLe b a := by
  intro a b
  rcases le_total a.start b.start with h | h
  · simp [keyLe_eq_true_iff.mpr h]
  · simp [keyLe_eq_true_iff.mpr h]

theorem sortByStart_pairwise (l : List Range) : (sortByStart l).Pairwise SLe := by
  have h := List.sorted_mergeSort keyLe_trans keyLe_total l
  exact h.imp (fun hab => keyLe_eq_true_iff.mp hab)

theorem sortByStart_perm (l : List Range) : (sortByStart l).Perm l :=
  List.mergeSort_perm l keyLe

theorem sortByStart_of_pairwise {l : List Range} (h : l.Pairwise SLe) :
    sortByStart l = l := by
  apply List.mergeSort_of_sorted
  exact h.imp (fun hab => keyLe_eq_true_iff.mpr hab)

theorem updateEnd_start (cur r : Range) : (updateEnd cur r).start = cur.start := by
  unfold updateEnd
  split <;> rfl

theorem updateEnd_end (cur r : Range) :
    (updateEnd cur r).«end» = max cur.«end» r.«end» := by
  unfold updateEnd
  split
  · next h =>
    rw [jsLtB_eq_true_iff] at h
    exact (max_eq_right h.le).symm
  · next h =>
    rw [Bool.not_eq_true, jsLtB_eq_false_iff] at h
    exact (max_eq_left h).symm

theorem updateEnd_eq (cur r : Range) :
    updateEnd cur r = ⟨cur.start, max cur.«end» r.«end»⟩ := by
  cases hu : updateEnd cur r with
  | mk s e =>
    have hs := updateEnd_start cur r
    have he := updateEnd_end cur r
    rw [hu] at hs he
    simp_all

/-- Every output of the merge sweep is a cons whose head has the current
tail's start date. -/
theorem mergeGoC_cons (c : String → String → Bool) :
    ∀ (l : List Range) (cur : Range),
      ∃ e tl, mergeGoC c cur l = ⟨cur.start, e⟩ :: tl := by
  intro l
  induction l with
  | nil =>
    intro cur
    exact ⟨cur.«end», [], by simp [mergeGoC]⟩
  | cons r rest ih =>
    intro cur
    by_cases h : c r.start cur.«end» = true
    · obtain ⟨e, tl, heq⟩ := ih (updateEnd cur r)
      refine ⟨e, tl, ?_⟩
      rw [mergeGoC, if_pos h, heq, updateEnd_start]
    · refine ⟨cur.«end», mergeGoC c r rest, ?_⟩
      rw [mergeGoC, if_neg h]

/-- The merge sweep establishes the gap invariant between consecutive output
ranges. -/
theorem mergeGoC_gap (c : String → String → Bool) :
    ∀ (l : List Range) (cur : Range), List.Chain' (Gap c) (mergeGoC c cur l) := by
  intro l
  induction l with
  | nil => intro cur; simp [mergeGoC]
  | cons r rest ih =>
    intro cur
    by_cases h : c r.start cur.«end» = true
    · rw [mergeGoC, if_pos h]
      exact ih (updateEnd cur r)
    · rw [mergeGoC, if_neg h]
      obtain ⟨e, tl, heq⟩ := mergeGoC_cons c rest r
      rw [heq]
      refine List.Chain'.cons ?_ (heq ▸ ih r)
      simpa [Gap] using h

/-- On a list already satisfying the gap invariant the merge sweep only
pushes. -/
theorem mergeGoC_of_gap (c : String → String → Bool) :
    ∀ (l : List Range) (cur : Range), List.Chain' (Gap c) (cur :: l) →
      mergeGoC c cur l = cur :: l := by
  intro l
  induction l with
  | nil => intro cur _; simp [mergeGoC]
  | cons r rest ih =>
    intro cur h
    rw [List.chain'_cons] at h
    rw [mergeGoC, if_neg (by simp [Gap] at h; simp [h.1]), ih r h.2]

theorem mergeC_of_gap {c : String → String → Bool} {l : List Range}
    (h : List.Chain' (Gap c) l) : mergeC c l = l := by
  cases l with
  | nil => rfl
  | cons r rest => exact mergeGoC_of_gap c rest r h

/-- The merge sweep keeps the output sorted by start. -/
theorem mergeGoC_sle (c : String → String → Bool) :
    ∀ (l : List Range) (cur : Range), List.Chain' SLe (cur :: l) →
      List.Chain' SLe (mergeGoC c cur l) := by
  intro l
  induction l with
  | nil => intro cur _; simp [mergeGoC]
  | cons r rest ih =>
    intro cur h
    rw [List.chain'_cons] at h
    by_cases hc : c r.start cur.«end» = true
    · rw [mergeGoC, if_pos hc]
      apply ih
      cases rest with
      | nil => simp
      | cons y l2 =>
        rw [List.chain'_cons] at h ⊢
        constructor
        · show (updateEnd cur r).start ≤ y.start
          rw [updateEnd_start]
          exact le_trans h.1 h.2.1
        · exact h.2.2
    · rw [mergeGoC, if_neg hc]
      obtain ⟨e, tl, heq⟩ := mergeGoC_cons c rest r
      rw [heq]
      refine List.Chain'.cons ?_ (heq ▸ ih r h.2)
      exact h.1

/-- Truthiness of both fields, the property the input filter selects. -/
def OkR (r : Range) : Prop := (strTruthy r.start && strTruthy r.«end») = true

theorem updateEnd_ok {cur r : Range} (hc : OkR cur) (hr : OkR r) :
    OkR (updateEnd cur r) := by
  unfold updateEnd
  split
  · simp_all [OkR]
  · exact hc

theorem mergeGoC_ok (c : String → String → Bool) :
    ∀ (l : List Range) (cur : Range), OkR cur → (∀ x ∈ l, OkR x) →
      ∀ y ∈ mergeGoC c cur l, OkR y := by
  intro l
  induction l with
  | nil =>
    intro cur hcur _ y hy
    simp [mergeGoC] at hy
    exact hy ▸ hcur
  | cons r rest ih =>
    intro cur hcur hl y hy
    by_cases h : c r.start cur.«end» = true
    · rw [mergeGoC, if_pos h] at hy
      exact ih (updateEnd cur r) (updateEnd_ok hcur (hl r (by simp)))
        (fun x hx => hl x (by simp [hx])) y hy
    · rw [mergeGoC, if_neg h] at hy
      rcases List.mem_cons.mp hy with rfl | hy
      · exact hcur
      · exact ih r (hl r (by simp)) (fun x hx => hl x (by simp [hx])) y hy

theorem dedupeGo_subset :
    ∀ (l : List Range) (prev y : Range), y ∈ dedupeGo prev l → y ∈ l := by
  intro l
  induction l with
  | nil => intro prev y hy; simp [dedupeGo] at hy
  | cons r rest ih =>
    intro prev y hy
    rw [dedupeGo] at hy
    split at hy
    · rcases List.mem_cons.mp hy with rfl | hy
      · simp
      · exact List.mem_cons_of_mem _ (ih r y hy)
    · exact List.mem_cons_of_mem _ (ih prev y hy)

theorem dedupe_subset {l : List Range} {y : Range} (hy : y ∈ dedupe l) : y ∈ l := by
  cases l with
  | nil => simp [dedupe] at hy
  | cons r rest =>
    rw [dedupe] at hy
    rcases List.mem_cons.mp hy with rfl | hy
    · simp
    · exact List.mem_cons_of_mem _ (dedupeGo_subset rest r y hy)

/-- Dropping a range equal to the previous kept one preserves any chain
invariant. -/
theorem dedupeGo_chain {R : Range → Range → Prop} :
    ∀ (l : List Range) (prev : Range), List.Chain' R (prev :: l) →
      List.Chain' R (prev :: dedupeGo prev l) := by
  intro l
  induction l with
  | nil => intro prev _; simp [dedupeGo]
  | cons r rest ih =>
    intro prev h
    rw [List.chain'_cons] at h
    rw [dedupeGo]
    split
    · rw [List.chain'_cons]
      exact ⟨h.1, ih r h.2⟩
    · next hcond =>
      have hpr : prev = r := by
        push_neg at hcond
        cases prev; cases r; simp_all
      exact ih prev (hpr ▸ h.2)

theorem dedupe_chain {R : Range → Range → Prop} {l : List Range}
    (h : List.Chain' R l) : List.Chain' R (dedupe l) := by
  cases l with
  | nil => simp [dedupe]
  | cons r rest => exact dedupeGo_chain rest r h

/-- The deduplication output has no two consecutive equal ranges. -/
theorem dedupeGo_ne :
    ∀ (l : List Range) (prev : Range),
      List.Chain' (fun a b => a ≠ b) (prev :: dedupeGo prev l) := by
  intro l
  induction l with
  | nil => intro prev; simp [dedupeGo]
  | cons r rest ih =>
    intro prev
    rw [dedupeGo]
    split
    · next hcond =>
      rw [List.chain'_cons]
      refine ⟨?_, ih r⟩
      intro hpr
      rcases hcond with hc | hc <;> exact hc (by rw [hpr])
    · exact ih prev

theorem dedupe_ne (l : List Range) :
    List.Chain' (fun a b => a ≠ b) (dedupe l) := by
  cases l with
  | nil => simp [dedupe]
  | cons r rest => exact dedupeGo_ne rest r

theorem dedupeGo_of_ne :
    ∀ (l : List Range) (prev : Range),
      List.Chain' (fun a b => a ≠ b) (prev :: l) → dedupeGo prev l = l := by
  intro l
  induction l with
  | nil => intro prev _; simp [dedupeGo]
  | cons r rest ih =>
    intro prev h
    rw [List.chain'_cons] at h
    rw [dedupeGo]
    rw [if_pos ?_]
    · rw [ih r h.2]
    · by_contra hcond
      push_neg at hcond
      exact h.1 (by cases prev; cases r; simp_all)

theorem dedupe_of_ne {l : List Range}
    (h : List.Chain' (fun a b => a ≠ b) l) : dedupe l = l := by
  cases l with
  | nil => rfl
  | cons r rest =>
    rw [dedupe, dedupeGo_of_ne rest r h]

theorem filterRanges_eq_self {l : List Range} (h : ∀ y ∈ l, OkR y) :
    filterRanges l = l :=
  List.filter_eq_self.mpr h

/-- Structural facts about the output of the generic normalizer. -/
theorem normalizeC_invariants (c : String → String → Bool) (X : List Range) :
    (∀ y ∈ normalizeC c X, OkR y) ∧
      List.Chain' SLe (normalizeC c X) ∧
      List.Chain' (Gap c) (normalizeC c X) ∧
      List.Chain' (fun a b => a ≠ b) (normalizeC c X) := by
  unfold normalizeC
  set S := sortByStart (filterRanges X) with hS
  have hok : ∀ y ∈ S, OkR y := by
    intro y hy
    rw [hS, sortByStart] at hy
    rw [List.mem_mergeSort] at hy
    have hy2 : y ∈ List.filter (fun r => strTruthy r.start && strTruthy r.«end») X := hy
    exact (List.mem_filter.mp hy2).2
  have hsorted : List.Chain' SLe S := (sortByStart_pairwise _).chain'
  have hmok : ∀ y ∈ mergeC c S, OkR y := by
    cases hSc : S with
    | nil => simp [mergeC]
    | cons r rest =>
      rw [mergeC]
      exact mergeGoC_ok c rest r (hok r (by rw [hSc]; simp))
        (fun x hx => hok x (by rw [hSc]; simp [hx]))
  have hmsle : List.Chain' SLe (mergeC c S) := by
    cases hSc : S with
    | nil => simp [mergeC]
    | cons r rest =>
      rw [mergeC]
      exact mergeGoC_sle c rest r (hSc ▸ hsorted)
  have hmgap : List.Chain' (Gap c) (mergeC c S) := by
    cases hSc : S with
    | nil => simp [mergeC]
    | cons r rest =>
      rw [mergeC]
      exact mergeGoC_gap c rest r
  refine ⟨?_, dedupe_chain hmsle, dedupe_chain hmgap, dedupe_ne _⟩
  intro y hy
  exact hmok y (dedupe_subset hy)

/-- Idempotence of the generic normalizer. -/
theorem normalizeC_idem (c : String → String → Bool) (X : List Range) :
    normalizeC c (normalizeC c X) = normalizeC c X := by
  obtain ⟨hok, hsle, hgap, hne⟩ := normalizeC_invariants c X
  have h1 : filterRanges (normalizeC c X) = normalizeC c X := filterRanges_eq_self hok
  have h2 : sortByStart (normalizeC c X) = normalizeC c X :=
    sortByStart_of_pairwise ((List.chain'_iff_pairwise).mp hsle)
  have h3 : mergeC c (normalizeC c X) = normalizeC c X := mergeC_of_gap hgap
  have h4 : dedupe (normalizeC c X) = normalizeC c X := dedupe_of_ne hne
  calc normalizeC c (normalizeC c X)
      = dedupe (mergeC c (sortByStart (filterRanges (normalizeC c X)))) := rfl
    _ = normalizeC c X := by rw [h1, h2, h3, h4]

/-! ## Order invariance of the strict-merge normalizer on valid intervals -/

/-- A well-formed half-open interval: `end` strictly after `start` (the shape
`parseICS` guarantees). -/
def ValidR (r : Range) : Prop := r.start < r.«end»

theorem jsLtB_true_of_lt {a b : String} (h : a < b) : jsLtB a b = true :=
  jsLtB_eq_true_iff.mpr h

/-- Swapping two adjacent inputs with the same start date does not change the
strict merge sweep, provided both are valid intervals. -/
theorem mergeGoC_lt_swap {a b : Range} (hs : a.start = b.start)
    (ha : ValidR a) (hb : ValidR b) (t : List Range) (cur : Range) :
    mergeGoC (fun x y => jsLtB x y) cur (a :: b :: t) =
      mergeGoC (fun x y => jsLtB x y) cur (b :: a :: t) := by
  by_cases h : jsLtB a.start cur.«end» = true
  · have h2 : jsLtB b.start cur.«end» = true := hs ▸ h
    have hlt : a.start < cur.«end» := jsLtB_eq_true_iff.mp h
    have hca : jsLtB b.start (updateEnd cur a).«end» = true := by
      apply jsLtB_true_of_lt
      rw [updateEnd_end, ← hs]
      exact lt_of_lt_of_le hlt (le_max_left _ _)
    have hcb : jsLtB a.start (updateEnd cur b).«end» = true := by
      apply jsLtB_true_of_lt
      rw [updateEnd_end, hs]
      exact lt_of_lt_of_le (hs ▸ hlt) (le_max_left _ _)
    simp only [mergeGoC, h, h2, hca, hcb, if_true]
    congr 1
    rw [updateEnd_eq, updateEnd_eq, updateEnd_eq, updateEnd_eq]
    simp only [Range.mk.injEq, and_true, true_and]
    exact sup_right_comm cur.«end» a.«end» b.«end»
  · have h2 : ¬ jsLtB b.start cur.«end» = true := hs ▸ h
    have hab : jsLtB b.start a.«end» = true := jsLtB_true_of_lt (hs ▸ ha)
    have hba : jsLtB a.start b.«end» = true := jsLtB_true_of_lt (hs ▸ hb)
    simp only [mergeGoC, if_neg h, if_neg h2, hab, hba, if_true]
    congr 2
    rw [updateEnd_eq, updateEnd_eq, hs, max_comm]

/-- A minimal-start element of a sorted list of valid intervals can be moved
to the front without changing the strict merge sweep. -/
theorem mergeGoC_lt_erase :
    ∀ (l : List Range) (h : Range), h ∈ l → l.Pairwise SLe →
      (∀ r ∈ l, ValidR r) → (∀ r ∈ l, h.start ≤ r.start) →
      ∀ cur, mergeGoC (fun x y => jsLtB x y) cur l =
        mergeGoC (fun x y => jsLtB x y) cur (h :: l.erase h) := by
  intro l
  induction l with
  | nil => intro h hmem; simp at hmem
  | cons a t ih =>
    intro h hmem hpw hval hmin cur
    by_cases hha : h = a
    · subst hha
      rw [List.erase_cons_head]
    · have hht : h ∈ t := by
        rcases List.mem_cons.mp hmem with rfl | ht
        · exact absurd rfl hha
        · exact ht
      have herase : (a :: t).erase h = a :: t.erase h := by
        rw [List.erase_cons]
        rw [if_neg (by simp [Ne.symm hha])]
      rw [herase]
      have hstart : h.start = a.start :=
        le_antisymm (hmin a (by simp)) ((List.pairwise_cons.mp hpw).1 h hht)
      rw [mergeGoC_lt_swap hstart (hval h hmem) (hval a (by simp)) _ cur]
      have IH := ih h hht (List.pairwise_cons.mp hpw).2
        (fun r hr => hval r (by simp [hr]))
        (fun r hr => hmin r (by simp [hr]))
      by_cases hc : jsLtB a.start cur.«end» = true
      · simp only [mergeGoC, hc, if_true]
        exact IH (updateEnd cur a)
      · simp only [mergeGoC, if_neg hc]
        congr 1
        rw [IH a, mergeGoC]

/-- Two sorted permutations of a list of valid intervals have the same strict
merge sweep. -/
theorem mergeGoC_lt_perm :
    ∀ (n : Nat) (l1 l2 : List Range), l1.length ≤ n → l1.Perm l2 →
      l1.Pairwise SLe → l2.Pairwise SLe → (∀ r ∈ l1, ValidR r) →
      ∀ cur, mergeGoC (fun x y => jsLtB x y) cur l1 =
        mergeGoC (fun x y => jsLtB x y) cur l2 := by
  intro n
  induction n with
  | zero =>
    intro l1 l2 hlen hperm _ _ _ cur
    have h1 : l1 = [] := List.length_eq_zero.mp (Nat.le_zero.mp hlen)
    subst h1
    rw [hperm.symm.eq_nil]
  | succ m ih =>
    intro l1 l2 hlen hperm hpw1 hpw2 hval cur
    cases l1 with
    | nil => rw [hperm.symm.eq_nil]
    | cons a t1 =>
      cases l2 with
      | nil => exact absurd hperm.eq_nil (by simp)
      | cons b t2 =>
        have hbmem : b ∈ a :: t1 := hperm.mem_iff.mpr (by simp)
        have hmin : ∀ r ∈ a :: t1, b.start ≤ r.start := by
          intro r hr
          rcases List.mem_cons.mp (hperm.subset hr) with rfl | hr2
          · exact le_refl _
          · exact (List.pairwise_cons.mp hpw2).1 r hr2
        rw [mergeGoC_lt_erase (a :: t1) b hbmem hpw1 hval hmin cur]
        have hperm2 : List.Perm ((a :: t1).erase b) t2 :=
          ((List.perm_cons_erase hbmem).symm.trans hperm).cons_inv
        have hpwe : ((a :: t1).erase b).Pairwise SLe :=
          hpw1.sublist (List.erase_sublist _ _)
        have hvale : ∀ r ∈ (a :: t1).erase b, ValidR r :=
          fun r hr => hval r (List.mem_of_mem_erase hr)
        have hlen2 : ((a :: t1).erase b).length ≤ m := by
          rw [List.length_erase_of_mem hbmem]
          simp only [List.length_cons] at hlen ⊢
          omega
        have hpw2t : t2.Pairwise SLe := (List.pairwise_cons.mp hpw2).2
        by_cases hc : jsLtB b.start cur.«end» = true
        · simp only [mergeGoC, hc, if_true]
          exact ih _ t2 hlen2 hperm2 hpwe hpw2t hvale (updateEnd cur b)
        · simp only [mergeGoC, if_neg hc]
          rw [ih _ t2 hlen2 hperm2 hpwe hpw2t hvale b]

/-- Nothing compares strictly below the empty string, so a `⟨"", ""⟩` seed is
pushed untouched by the strict merge sweep. -/
theorem mergeGoC_lt_bot (l : List Range) :
    mergeGoC (fun x y => jsLtB x y) ⟨"", ""⟩ l =
      ⟨"", ""⟩ :: mergeC (fun x y => jsLtB x y) l := by
  cases l with
  | nil => rfl
  | cons r rest =>
    rw [mergeC, mergeGoC, if_neg ?_]
    show ¬ jsLtB r.start "" = true
    simp only [jsLtB, decide_eq_true_eq]
    intro hcon
    exact List.Lex.not_nil_right _ _ hcon

/-- The strict merge loop gives the same result on any two sorted
permutations of a valid interval list. -/
theorem mergeC_lt_perm {l1 l2 : List Range} (hperm : l1.Perm l2)
    (hpw1 : l1.Pairwise SLe) (hpw2 : l2.Pairwise SLe)
    (hval : ∀ r ∈ l1, ValidR r) :
    mergeC (fun x y => jsLtB x y) l1 = mergeC (fun x y => jsLtB x y) l2 := by
  have hbot := mergeGoC_lt_perm l1.length l1 l2 (le_refl _) hperm hpw1 hpw2 hval ⟨"", ""⟩
  rw [mergeGoC_lt_bot, mergeGoC_lt_bot] at hbot
  exact (List.cons.injEq _ _ _ _ ▸ hbot).2

/-! ## Claim theorems -/

unseal List.merge List.mergeSort in
/-- C1.  On the input `[2025-12-23,2025-12-24), [2025-12-24,2025-12-29)` the
`normalizeRanges` of `src/workers/avail-sync/src/index.js` (merge condition
`r.start <= last.end`) returns the single merged interval
`[2025-12-23,2025-12-29)` — contradicting the claim, the spec's regression
property, and the fix documented in `src/availability/TRANSITION.md` — while
the current multi-feed worker's `normalizeRanges` (strict `r.start <
last.end`, the fixed code stored in `src/push_availability.sh`) keeps the two
adjacent intervals separate as the claim states. -/
theorem claim_C1_boundary_merge_bug :
    Worker.normalizeRanges
        [⟨"2025-12-23", "2025-12-24"⟩, ⟨"2025-12-24", "2025-12-29"⟩] =
      [⟨"2025-12-23", "2025-12-29"⟩] ∧
    Multi.normalizeRanges
        [⟨"2025-12-23", "2025-12-24"⟩, ⟨"2025-12-24", "2025-12-29"⟩] =
      [⟨"2025-12-23", "2025-12-24"⟩, ⟨"2025-12-24", "2025-12-29"⟩] := by
  constructor <;> decide

/-- C2.  Both workers' `normalizeRanges` are idempotent: feeding the output
back in returns it unchanged, for every interval list. -/
theorem claim_C2_normalize_idempotent (X : List Range) :
    Worker.normalizeRanges (Worker.normalizeRanges X) = Worker.normalizeRanges X ∧
    Multi.normalizeRanges (Multi.normalizeRanges X) = Multi.normalizeRanges X :=
  ⟨normalizeC_idem (fun a b => jsLeB a b) X, normalizeC_idem (fun a b => jsLtB a b) X⟩

unseal List.merge List.mergeSort in
/-- C3, counterexample.  Normalization is *not* invariant under permutation of
arbitrary input lists: for the two-element list containing the malformed
interval `{start := 2025-01-02, end := 2025-01-01}` (end before start)
together with `{start := 2025-01-02, end := 2025-01-03}`, the two orders give
different results (the malformed interval is absorbed in one order and kept in
the other). -/
theorem claim_C3_counterexample :
    List.Perm
        [Range.mk "2025-01-02" "2025-01-01", Range.mk "2025-01-02" "2025-01-03"]
        [Range.mk "2025-01-02" "2025-01-03", Range.mk "2025-01-02" "2025-01-01"] ∧
    Multi.normalizeRanges
        [Range.mk "2025-01-02" "2025-01-01", Range.mk "2025-01-02" "2025-01-03"] ≠
      Multi.normalizeRanges
        [Range.mk "2025-01-02" "2025-01-03", Range.mk "2025-01-02" "2025-01-01"] :=
  ⟨List.Perm.swap _ _ _, by decide⟩

/-- C3, amended.  For lists of well-formed intervals (`end` strictly after
`start`, the shape the parser guarantees), the normalization result of the
current worker is independent of the input order. -/
theorem claim_C3_sort_invariance_on_valid (X Y : List Range)
    (hperm : List.Perm X Y) (hval : ∀ r ∈ X, r.start < r.«end») :
    Multi.normalizeRanges X = Multi.normalizeRanges Y := by
  have hfp : List.Perm (filterRanges X) (filterRanges Y) := hperm.filter _
  have hsp : List.Perm (sortByStart (filterRanges X)) (sortByStart (filterRanges Y)) :=
    (sortByStart_perm _).trans (hfp.trans (sortByStart_perm _).symm)
  have hval2 : ∀ r ∈ sortByStart (filterRanges X), ValidR r := by
    intro r hr
    rw [sortByStart, List.mem_mergeSort] at hr
    exact hval r (List.mem_of_mem_filter hr)
  exact congrArg dedupe
    (mergeC_lt_perm hsp (sortByStart_pairwise _) (sortByStart_pairwise _) hval2)

/-- C4.  When at least one feed succeeds, hashing succeeds, and the candidate
booking hash equals the hash recorded in the previously stored status (after
stripping its `sha256:` prefix), the cycle writes a status with `ok = true`,
`message = "unchanged"`, `changed = false`, leaves the `booked` and
`last_sync` keys untouched, and emits no alert. -/
theorem claim_C4_unchanged_no_write
    (env : CycleEnv) (slug : String) (feeds : List FeedSpec) (kv : KVState)
    (prev : SyncStatus) (bh : String)
    (hsucc : (Multi.processFeeds env feeds).successCount ≠ 0)
    (hhash : env.hash (stringifyRanges
      (Multi.normalizeRanges (Multi.processFeeds env feeds).allRanges)) = Except.ok bh)
    (hget : env.kvGetStatus = Except.ok (some prev))
    (hprev : prev.booking_hash.map (fun s => replaceFirst s "sha256:" "") = some bh)
    (hput : env.kvPutOk = true) :
    ∃ st, (Multi.syncProperty env slug feeds kv).1.sync_status = some st ∧
      st.ok = true ∧ st.message = "unchanged" ∧ st.changed = false ∧
      (Multi.syncProperty env slug feeds kv).1.booked = kv.booked ∧
      (Multi.syncProperty env slug feeds kv).1.last_sync = kv.last_sync ∧
      (Multi.syncProperty env slug feeds kv).2 = [] := by
  have hres : Multi.syncProperty env slug feeds kv =
      ({ kv with
         sync_status :=
           some (Multi.writeStatus true "airbnb+booking" "unchanged" (some bh) false
             (Multi.processFeeds env feeds).feedsStatus
             (Multi.combinedFeedHashOf env (Multi.processFeeds env feeds)) env.now) },
       []) := by
    simp only [Multi.syncProperty]
    rw [if_neg hsucc, hhash]
    dsimp only
    rw [hget]
    dsimp only [Option.bind]
    rw [hprev]
    rw [if_pos (fun h => h rfl), if_pos hput]
  rw [hres]
  exact ⟨_, rfl, rfl, rfl, rfl, rfl, rfl, rfl⟩

unseal List.merge List.mergeSort in
/-- C4, witness: a concrete unchanged cycle. -/
theorem claim_C4_witness :
    ∃ st, (Multi.syncProperty
        ⟨fun _ => Except.ok "x", fun _ => Except.ok "h",
          Except.ok (some ⟨true, "T0", "ok", "airbnb+booking", true, some "sha256:h", none, []⟩),
          true, "T1", fun _ => none⟩
        "studio-9" [⟨"airbnb", "u"⟩] ⟨none, none, none⟩).1.sync_status = some st ∧
      st.ok = true ∧ st.message = "unchanged" ∧ st.changed = false ∧
      (Multi.syncProperty
        ⟨fun _ => Except.ok "x", fun _ => Except.ok "h",
          Except.ok (some ⟨true, "T0", "ok", "airbnb+booking", true, some "sha256:h", none, []⟩),
          true, "T1", fun _ => none⟩
        "studio-9" [⟨"airbnb", "u"⟩] ⟨none, none, none⟩).1.booked = none ∧
      (Multi.syncProperty
        ⟨fun _ => Except.ok "x", fun _ => Except.ok "h",
          Except.ok (some ⟨true, "T0", "ok", "airbnb+booking", true, some "sha256:h", none, []⟩),
          true, "T1", fun _ => none⟩
        "studio-9" [⟨"airbnb", "u"⟩] ⟨none, none, none⟩).1.last_sync = none ∧
      (Multi.syncProperty
        ⟨fun _ => Except.ok "x", fun _ => Except.ok "h",
          Except.ok (some ⟨true, "T0", "ok", "airbnb+booking", true, some "sha256:h", none, []⟩),
          true, "T1", fun _ => none⟩
        "studio-9" [⟨"airbnb", "u"⟩] ⟨none, none, none⟩).2 = [] :=
  claim_C4_unchanged_no_write _ "studio-9" _ _ _ "h" (by decide) rfl rfl rfl rfl

/-- C5.  When zero feed sources succeed, the cycle writes a status with
`ok = false` and `message = "all_feeds_failed"`, leaves the `booked` and
`last_sync` keys untouched, and emits exactly one alert. -/
theorem claim_C5_all_feeds_failed
    (env : CycleEnv) (slug : String) (feeds : List FeedSpec) (kv : KVState)
    (hsucc : (Multi.processFeeds env feeds).successCount = 0) :
    ∃ st, (Multi.syncProperty env slug feeds kv).1.sync_status = some st ∧
      st.ok = false ∧ st.message = "all_feeds_failed" ∧
      (Multi.syncProperty env slug feeds kv).1.booked = kv.booked ∧
      (Multi.syncProperty env slug feeds kv).1.last_sync = kv.last_sync ∧
      (Multi.syncProperty env slug feeds kv).2 = [Multi.alertMsg slug "all feeds failed"] := by
  have hres : Multi.syncProperty env slug feeds kv =
      ({ kv with
         sync_status :=
           some (Multi.writeStatus false "airbnb+booking" "all_feeds_failed" none false
             (Multi.processFeeds env feeds).feedsStatus none env.now) },
       [Multi.alertMsg slug "all feeds failed"]) := by
    simp only [Multi.syncProperty]
    rw [if_pos hsucc]
  rw [hres]
  exact ⟨_, rfl, rfl, rfl, rfl, rfl, rfl⟩

/-- C5, witness: both configured feeds fail at fetch. -/
theorem claim_C5_witness :
    ∃ st, (Multi.syncProperty
        ⟨fun _ => Except.error "HTTP 404", fun _ => Except.ok "h", Except.ok none, true,
          "T1", fun _ => none⟩
        "blue-dream" [⟨"airbnb", "u1"⟩, ⟨"booking", "u2"⟩] ⟨none, none, none⟩).1.sync_status =
          some st ∧
      st.ok = false ∧ st.message = "all_feeds_failed" ∧
      (Multi.syncProperty
        ⟨fun _ => Except.error "HTTP 404", fun _ => Except.ok "h", Except.ok none, true,
          "T1", fun _ => none⟩
        "blue-dream" [⟨"airbnb", "u1"⟩, ⟨"booking", "u2"⟩] ⟨none, none, none⟩).1.booked = none ∧
      (Multi.syncProperty
        ⟨fun _ => Except.error "HTTP 404", fun _ => Except.ok "h", Except.ok none, true,
          "T1", fun _ => none⟩
        "blue-dream" [⟨"airbnb", "u1"⟩, ⟨"booking", "u2"⟩] ⟨none, none, none⟩).1.last_sync = none ∧
      (Multi.syncProperty
        ⟨fun _ => Except.error "HTTP 404", fun _ => Except.ok "h", Except.ok none, true,
          "T1", fun _ => none⟩
        "blue-dream" [⟨"airbnb", "u1"⟩, ⟨"booking", "u2"⟩] ⟨none, none, none⟩).2 =
          [Multi.alertMsg "blue-dream" "all feeds failed"] :=
  claim_C5_all_feeds_failed _ "blue-dream" _ _ (by decide)

unseal List.merge List.mergeSort in
/-- C7, counterexample.  A cycle whose store write fails is tagged with the
message `kv_write_error`, which is none of the three vocabulary words the
claim allows (`merge_error`, `hash_error`, `store_write_error`). -/
theorem claim_C7_counterexample :
    ∃ st, (Multi.syncProperty
        ⟨fun _ => Except.ok "x", fun _ => Except.ok "h", Except.ok none, false, "T1",
          fun _ => none⟩
        "studio-9" [⟨"airbnb", "u"⟩] ⟨none, none, none⟩).1.sync_status = some st ∧
      st.ok = false ∧ st.message = "kv_write_error" ∧
      st.message ≠ "merge_error" ∧ st.message ≠ "hash_error" ∧
      st.message ≠ "store_write_error" :=
  ⟨_, rfl, rfl, rfl, by decide, by decide, by decide⟩

/-- C7, amended.  An unexpected failure while hashing or persisting writes a
failed status naming the stage — `hash_error` for the hashing stage and
`kv_write_error` (not `store_write_error`) for the store-write stage — and
emits one alert; merging (`normalizeRanges ∘ parseICS`) is total, so a merge
failure cannot occur; and every cycle ends with a status write. -/
theorem claim_C7_failure_stage_tagging :
    (∀ (env : CycleEnv) (slug : String) (feeds : List FeedSpec) (kv : KVState) (e : String),
      (Multi.processFeeds env feeds).successCount ≠ 0 →
      env.hash (stringifyRanges
        (Multi.normalizeRanges (Multi.processFeeds env feeds).allRanges)) = Except.error e →
      ∃ st, (Multi.syncProperty env slug feeds kv).1.sync_status = some st ∧
        st.ok = false ∧ st.message = "hash_error" ∧
        (Multi.syncProperty env slug feeds kv).2 = [Multi.alertMsg slug "hash_error"]) ∧
    (∀ (env : CycleEnv) (slug : String) (feeds : List FeedSpec) (kv : KVState) (bh : String),
      (Multi.processFeeds env feeds).successCount ≠ 0 →
      env.hash (stringifyRanges
        (Multi.normalizeRanges (Multi.processFeeds env feeds).allRanges)) = Except.ok bh →
      ((∃ e, env.kvGetStatus = Except.error e) ∨ env.kvPutOk = false) →
      ∃ st, (Multi.syncProperty env slug feeds kv).1.sync_status = some st ∧
        st.ok = false ∧ st.message = "kv_write_error" ∧
        (Multi.syncProperty env slug feeds kv).2 = [Multi.alertMsg slug "kv_write_error"]) ∧
    (∀ (env : CycleEnv) (slug : String) (feeds : List FeedSpec) (kv : KVState),
      ((Multi.syncProperty env slug feeds kv).1.sync_status).isSome = true) := by
  refine ⟨?_, ?_, ?_⟩
  · intro env slug feeds kv e hsucc hhash
    have hres : Multi.syncProperty env slug feeds kv =
        ({ kv with
           sync_status :=
             some (Multi.writeStatus false "airbnb+booking" "hash_error" none false
               (Multi.processFeeds env feeds).feedsStatus none env.now) },
         [Multi.alertMsg slug "hash_error"]) := by
      simp only [Multi.syncProperty]
      rw [if_neg hsucc, hhash]
    rw [hres]
    exact ⟨_, rfl, rfl, rfl, rfl⟩
  · intro env slug feeds kv bh hsucc hhash hfail
    have hres : Multi.syncProperty env slug feeds kv =
        Multi.kvWriteFail slug (Multi.processFeeds env feeds)
          (Multi.combinedFeedHashOf env (Multi.processFeeds env feeds)) env.now kv := by
      rcases hfail with ⟨e, hget⟩ | hput
      · simp only [Multi.syncProperty]
        rw [if_neg hsucc, hhash]
        dsimp only
        rw [hget]
      · simp only [Multi.syncProperty]
        rw [if_neg hsucc, hhash]
        dsimp only
        cases hget : env.kvGetStatus with
        | error e => rfl
        | ok prev =>
          dsimp only [Option.bind]
          rw [hput]
          split
          · rw [if_neg (fun h => Bool.false_ne_true h)]
          · rw [if_neg (fun h => Bool.false_ne_true h)]
    rw [hres]
    exact ⟨_, rfl, rfl, rfl, rfl⟩
  · intro env slug feeds kv
    simp only [Multi.syncProperty]
    split
    · simp [Multi.writeStatus]
    · split
      · simp [Multi.writeStatus]
      · split
        · simp [Multi.kvWriteFail, Multi.writeStatus]
        · split
          · split
            · simp [Multi.writeStatus]
            · simp [Multi.kvWriteFail, Multi.writeStatus]
          · split
            · simp [Multi.writeStatus]
            · simp [Multi.kvWriteFail, Multi.writeStatus]

unseal List.merge List.mergeSort in
/-- C7, witness: a concrete cycle failing at the hashing stage. -/
theorem claim_C7_witness :
    ∃ st, (Multi.syncProperty
        ⟨fun _ => Except.ok "x", fun s => if s = "x" then Except.ok "fh" else Except.error "boom",
          Except.ok none, true, "T1", fun _ => none⟩
        "studio-9" [⟨"airbnb", "u"⟩] ⟨none, none, none⟩).1.sync_status = some st ∧
      st.ok = false ∧ st.message = "hash_error" ∧
      (Multi.syncProperty
        ⟨fun _ => Except.ok "x", fun s => if s = "x" then Except.ok "fh" else Except.error "boom",
          Except.ok none, true, "T1", fun _ => none⟩
        "studio-9" [⟨"airbnb", "u"⟩] ⟨none, none, none⟩).2 =
        [Multi.alertMsg "studio-9" "hash_error"] :=
  claim_C7_failure_stage_tagging.1 _ "studio-9" _ _ "boom" (by decide) rfl

/-- C6.  A first response with a 4xx status other than 429 makes the fetcher
fail after exactly one attempt with that HTTP error, while attempts that keep
producing 429/5xx responses or network errors are retried up to the full
three-attempt schedule before failing. -/
theorem claim_C6_fail_fast_on_4xx :
    (∀ (attempts : Nat → AttemptResult) (st : Nat) (body : String),
      attempts 0 = AttemptResult.response st body → 400 ≤ st → st < 500 → st ≠ 429 →
      fetchWithTimeout attempts = (Except.error ("HTTP " ++ toString st), 1)) ∧
    (∀ (attempts : Nat → AttemptResult),
      (∀ i, i < 3 → ∀ s b, attempts i = AttemptResult.response s b → s = 429 ∨ 500 ≤ s) →
      (fetchWithTimeout attempts).2 = 3 ∧
        ∃ e, (fetchWithTimeout attempts).1 = Except.error e) := by
  constructor
  · intro attempts st body h0 h4 h5 h429
    unfold fetchWithTimeout
    rw [fetchLoop, if_pos (by omega : (0 : Nat) < 3), h0]
    try dsimp only
    rw [if_neg (by omega : ¬(200 ≤ st ∧ st ≤ 299))]
    rw [if_neg (by omega : ¬(st = 429 ∨ 500 ≤ st))]
  · intro attempts hr
    have h0 := hr 0 (by omega)
    have h1 := hr 1 (by omega)
    have h2 := hr 2 (by omega)
    have k2 : ∀ le : Option String, (fetchLoop attempts le 2).2 = 3 ∧
        ∃ e, (fetchLoop attempts le 2).1 = Except.error e := by
      intro le
      rw [fetchLoop, if_pos (by omega : (2 : Nat) < 3)]
      cases ha : attempts 2 with
      | response s b =>
        have hs := h2 s b ha
        try dsimp only
        rw [if_neg (by omega : ¬(200 ≤ s ∧ s ≤ 299)), if_pos hs]
        rw [fetchLoop, if_neg (by omega : ¬(3 : Nat) < 3)]
        exact ⟨rfl, _, rfl⟩
      | netErr m =>
        try dsimp only
        rw [if_pos rfl]
        exact ⟨rfl, m, rfl⟩
    have k1 : ∀ le : Option String, (fetchLoop attempts le 1).2 = 3 ∧
        ∃ e, (fetchLoop attempts le 1).1 = Except.error e := by
      intro le
      rw [fetchLoop, if_pos (by omega : (1 : Nat) < 3)]
      cases ha : attempts 1 with
      | response s b =>
        have hs := h1 s b ha
        try dsimp only
        rw [if_neg (by omega : ¬(200 ≤ s ∧ s ≤ 299)), if_pos hs]
        exact k2 _
      | netErr m =>
        try dsimp only
        rw [if_neg (by omega : ¬(1 : Nat) = 2)]
        exact k2 _
    unfold fetchWithTimeout
    rw [fetchLoop, if_pos (by omega : (0 : Nat) < 3)]
    cases ha : attempts 0 with
    | response s b =>
      have hs := h0 s b ha
      try dsimp only
      rw [if_neg (by omega : ¬(200 ≤ s ∧ s ≤ 299)), if_pos hs]
      exact k1 _
    | netErr m =>
      try dsimp only
      rw [if_neg (by omega : ¬(0 : Nat) = 2)]
      exact k1 _

/-- C6, witness: a 404 fails after one attempt; a permanent 503 consumes all
three attempts. -/
theorem claim_C6_witness :
    fetchWithTimeout (fun _ => AttemptResult.response 404 "nope") =
      (Except.error "HTTP 404", 1) ∧
    (fetchWithTimeout (fun _ => AttemptResult.response 503 "down")).2 = 3 :=
  ⟨claim_C6_fail_fast_on_4xx.1 _ 404 "nope" rfl (by omega) (by omega) (by omega),
   (claim_C6_fail_fast_on_4xx.2 (fun _ => AttemptResult.response 503 "down")
     (fun i _ s b hsb => by
       cases hsb
       omega)).1⟩

/-- Every event pushed by the line loop of `parseICS` satisfies
`end > start`. -/
theorem parseGo_valid (fallback : String → Option String) :
    ∀ (lines : List String) (current : List (String × String)) (events : List Range),
      (∀ r ∈ events, r.start < r.«end») →
      ∀ r ∈ parseGo fallback lines current events, r.start < r.«end» := by
  intro lines
  induction lines with
  | nil =>
    intro current events he r hr
    rw [parseGo] at hr
    exact he r hr
  | cons raw rest ih =>
    intro current events he r hr
    rw [parseGo] at hr
    by_cases h1 : jsTrim raw = "BEGIN:VEVENT"
    · rw [if_pos h1] at hr
      exact ih [] events he r hr
    · rw [if_neg h1] at hr
      by_cases h2 : jsTrim raw = "END:VEVENT"
      · rw [if_pos h2] at hr
        refine ih [] _ ?_ r hr
        intro x hx
        by_cases hcan : isCancelled current = true
        · rw [if_pos hcan] at hx
          exact he x hx
        · rw [if_neg hcan] at hx
          cases hds : extractDate fallback current "DTSTART" with
          | none =>
            simp only [hds] at hx
            exact he x hx
          | some s =>
            cases hde : extractDate fallback current "DTEND" with
            | none =>
              simp only [hds, hde] at hx
              exact he x hx
            | some e =>
              simp only [hds, hde] at hx
              split at hx
              · next hguard =>
                rcases List.mem_append.mp hx with hx | hx
                · exact he x hx
                · have hx2 : x = ⟨s, e⟩ := by simpa using hx
                  subst hx2
                  simp only [Bool.and_eq_true] at hguard
                  exact jsLtB_eq_true_iff.mp hguard.2
              · exact he x hx
      · rw [if_neg h2] at hr
        exact ih _ events he r hr

/-- C8.  Every interval the parser returns has `end` strictly after `start`
(for every calendar text and every host date parser used by the fallback
branch), and on a feed containing one good event, one cancelled event, one
event missing `DTEND`, and one event with `end == start`, only the good event
survives — the defective entries are dropped without aborting the parse. -/
theorem claim_C8_parser_discards_malformed :
    (∀ (fallback : String → Option String) (text : String),
      ∀ r ∈ parseICS fallback text, r.start < r.«end») ∧
    parseICS (fun _ => none)
        ("BEGIN:VCALENDAR\r\nBEGIN:VEVENT\r\nDTSTART;VALUE=DATE:20250301\r\nDTEND;VALUE=DATE:20250304\r\nEND:VEVENT\r\nBEGIN:VEVENT\r\nSTATUS:CANCELLED\r\nDTSTART;VALUE=DATE:20250401\r\nDTEND;VALUE=DATE:20250405\r\nEND:VEVENT\r\nBEGIN:VEVENT\r\nDTSTART;VALUE=DATE:20250501\r\nEND:VEVENT\r\nBEGIN:VEVENT\r\nDTSTART;VALUE=DATE:20250601\r\nDTEND;VALUE=DATE:20250601\r\nEND:VEVENT\r\nEND:VCALENDAR\r\n") =
      [⟨"2025-03-01", "2025-03-04"⟩] :=
  ⟨fun fallback text => parseGo_valid fallback (unfoldText text) [] [] (by simp),
   by decide⟩

/-- C8, witness: the universally-quantified part applied to the concrete feed
and its surviving interval. -/
theorem claim_C8_witness : ("2025-03-01" : String) < "2025-03-04" :=
  claim_C8_parser_discards_malformed.1 (fun _ => none)
    ("BEGIN:VCALENDAR\r\nBEGIN:VEVENT\r\nDTSTART;VALUE=DATE:20250301\r\nDTEND;VALUE=DATE:20250304\r\nEND:VEVENT\r\nEND:VCALENDAR\r\n")
    ⟨"2025-03-01", "2025-03-04"⟩ (by decide)

/-- The success path of the read endpoint: a recognized slug with working KV
reads and JSON parse returns 200 with the parsed booked array and the stored
last-sync timestamp (omitted when absent or empty). -/
theorem api_onRequest_success
    (env : Api.ApiEnv) (slugParam : Option String)
    (hkv : env.kvPresent = true)
    (hbd : Api.normalizeSlug (slugParam.getD "") = "blue-dream" ∨
      Api.normalizeSlug (slugParam.getD "") = "studio-9")
    (sB sL : Option String) (bk : Api.JVal)
    (hB : env.get ("avail:" ++ Api.normalizeSlug (slugParam.getD "") ++ ":booked") =
      Except.ok sB)
    (hL : env.get ("avail:" ++ Api.normalizeSlug (slugParam.getD "") ++ ":last_sync") =
      Except.ok sL)
    (hJ : env.jsonParse (Api.bookedRawOf sB) = Except.ok bk) :
    Api.onRequest env "GET" slugParam =
      (⟨200, true, none, some (Api.normalizeSlug (slugParam.getD "")),
          some ("avail:" ++ Api.normalizeSlug (slugParam.getD "") ++ ":booked"), some bk,
          Api.lastSyncRawOf sL⟩,
       ["avail:" ++ Api.normalizeSlug (slugParam.getD "") ++ ":booked",
        "avail:" ++ Api.normalizeSlug (slugParam.getD "") ++ ":last_sync"]) := by
  simp only [Api.onRequest]
  rw [if_neg (fun h => h rfl), if_neg (fun h => h hkv)]
  rw [if_neg (by rcases hbd with h | h <;> simp [h])]
  simp only [hB, hL, hJ]

/-- C9.  A GET request whose slug does not normalize to one of the two
recognized resources is answered with HTTP 400 `invalid_slug` and no KV key is
read (the endpoint never writes); a recognized slug is answered with the
stored booked array and last-sync timestamp. -/
theorem claim_C9_read_interface :
    (∀ (env : Api.ApiEnv) (slugParam : Option String),
      env.kvPresent = true →
      (Api.normalizeSlug (slugParam.getD "") = "" ∨
        (Api.normalizeSlug (slugParam.getD "") ≠ "blue-dream" ∧
         Api.normalizeSlug (slugParam.getD "") ≠ "studio-9")) →
      Api.onRequest env "GET" slugParam =
        (⟨400, false, some "invalid_slug", none, none, none, none⟩, [])) ∧
    (∀ (env : Api.ApiEnv) (slugParam : Option String),
      env.kvPresent = true →
      (Api.normalizeSlug (slugParam.getD "") = "blue-dream" ∨
        Api.normalizeSlug (slugParam.getD "") = "studio-9") →
      ∀ (sB sL : Option String) (bk : Api.JVal),
        env.get ("avail:" ++ Api.normalizeSlug (slugParam.getD "") ++ ":booked") =
          Except.ok sB →
        env.get ("avail:" ++ Api.normalizeSlug (slugParam.getD "") ++ ":last_sync") =
          Except.ok sL →
        env.jsonParse (Api.bookedRawOf sB) = Except.ok bk →
        Api.onRequest env "GET" slugParam =
          (⟨200, true, none, some (Api.normalizeSlug (slugParam.getD "")),
              some ("avail:" ++ Api.normalizeSlug (slugParam.getD "") ++ ":booked"),
              some bk,
              Api.lastSyncRawOf sL⟩,
           ["avail:" ++ Api.normalizeSlug (slugParam.getD "") ++ ":booked",
            "avail:" ++ Api.normalizeSlug (slugParam.getD "") ++ ":last_sync"])) := by
  constructor
  · intro env slugParam hkv hbad
    simp only [Api.onRequest]
    rw [if_neg (fun h => h rfl), if_neg (fun h => h hkv), if_pos hbad]
  · intro env slugParam hkv hbd sB sL bk hB hL hJ
    exact api_onRequest_success env slugParam hkv hbd sB sL bk hB hL hJ

/-- C9, witness: a garbage slug is rejected with 400 and no reads; the alias
`Studio9` normalizes to `studio-9` and is served. -/
theorem claim_C9_witness :
    Api.onRequest
        ⟨true, fun _ => Except.ok none,
          fun s => if s = "[]" then Except.ok (Api.JVal.arr []) else Except.error "x"⟩
        "GET" (some "garbage!") =
      (⟨400, false, some "invalid_slug", none, none, none, none⟩, []) ∧
    Api.onRequest
        ⟨true, fun _ => Except.ok none,
          fun s => if s = "[]" then Except.ok (Api.JVal.arr []) else Except.error "x"⟩
        "GET" (some "Studio9") =
      (⟨200, true, none, some "studio-9", some "avail:studio-9:booked",
          some (Api.JVal.arr []), none⟩,
       ["avail:studio-9:booked", "avail:studio-9:last_sync"]) :=
  ⟨claim_C9_read_interface.1 _ (some "garbage!") rfl (by decide),
   claim_C9_read_interface.2 _ (some "Studio9") rfl (by decide) none none _ rfl rfl rfl⟩

/-- C10.  A recognized resource whose store holds neither booked data nor a
last-sync value is answered with HTTP 200, `ok = true`, the empty booked
array, and no `last_sync` field. -/
theorem claim_C10_empty_store_success
    (env : Api.ApiEnv) (slugParam : Option String)
    (hkv : env.kvPresent = true)
    (hbd : Api.normalizeSlug (slugParam.getD "") = "blue-dream" ∨
      Api.normalizeSlug (slugParam.getD "") = "studio-9")
    (hB : env.get ("avail:" ++ Api.normalizeSlug (slugParam.getD "") ++ ":booked") =
      Except.ok none)
    (hL : env.get ("avail:" ++ Api.normalizeSlug (slugParam.getD "") ++ ":last_sync") =
      Except.ok none)
    (hJ : env.jsonParse "[]" = Except.ok (Api.JVal.arr [])) :
    Api.onRequest env "GET" slugParam =
      (⟨200, true, none, some (Api.normalizeSlug (slugParam.getD "")),
          some ("avail:" ++ Api.normalizeSlug (slugParam.getD "") ++ ":booked"),
          some (Api.JVal.arr []), none⟩,
       ["avail:" ++ Api.normalizeSlug (slugParam.getD "") ++ ":booked",
        "avail:" ++ Api.normalizeSlug (slugParam.getD "") ++ ":last_sync"]) :=
  api_onRequest_success env slugParam hkv hbd none none (Api.JVal.arr []) hB hL hJ

/-- C10, witness: the empty store served for `blue-dream`. -/
theorem claim_C10_witness :
    Api.onRequest
        ⟨true, fun _ => Except.ok none,
          fun s => if s = "[]" then Except.ok (Api.JVal.arr []) else Except.error "x"⟩
        "GET" (some "blue-dream") =
      (⟨200, true, none, some "blue-dream", some "avail:blue-dream:booked",
          some (Api.JVal.arr []), none⟩,
       ["avail:blue-dream:booked", "avail:blue-dream:last_sync"]) :=
  claim_C10_empty_store_success _ (some "blue-dream") rfl (by decide) rfl rfl rfl

/-- C3, witness for the amended theorem at a concrete valid input. -/
theorem claim_C3_witness :
    Multi.normalizeRanges
        [Range.mk "2025-01-03" "2025-01-08", Range.mk "2025-01-01" "2025-01-05"] =
      Multi.normalizeRanges
        [Range.mk "2025-01-01" "2025-01-05", Range.mk "2025-01-03" "2025-01-08"] :=
  claim_C3_sort_invariance_on_valid _ _ (List.Perm.swap _ _ _) (by
    intro r hr
    rcases List.mem_cons.mp hr with rfl | hr
    · exact jsLtB_eq_true_iff.mp (by decide)
    · rcases List.mem_cons.mp hr with rfl | hr
      · exact jsLtB_eq_true_iff.mp (by decide)
      · simp at hr)
